import Mathlib

/-!
Verification development for the flowwispr voice-dictation engine.

The repository ships only the C FFI headers (`Sources/CFlow/include/flowwispr.h`
and `Sources/CFlowWispr/include/flowwispr.h`); the Rust implementation behind
them is not part of the source tree.  Every operational definition below is
therefore modelled from the specification document, faithful to its words, and
each definition's doc comment records what is being modelled.
-/

namespace FlowWispr

/-- Modelled from the spec: WritingMode enum {Formal, Casual, VeryCasual,
Excited}, transmitted over the FFI as codes 0, 1, 2, 3. -/
inductive WritingMode where
  | Formal
  | Casual
  | VeryCasual
  | Excited
deriving DecidableEq, Repr

/-- Modelled from the spec: the fixed FFI code of a writing mode
(0 = Formal, 1 = Casual, 2 = VeryCasual, 3 = Excited). -/
def modeCode : WritingMode → Nat
  | .Formal => 0
  | .Casual => 1
  | .VeryCasual => 2
  | .Excited => 3

/-- Modelled from the spec: the style-suggestion sentinel code 255,
distinct from every concrete writing mode. -/
def noSuggestionCode : Nat := 255

/-- Modelled from the spec: AppCategory enum, FFI codes 0-7. -/
inductive AppCategory where
  | Email
  | Slack
  | Code
  | Documents
  | Social
  | Browser
  | Terminal
  | Unknown
deriving DecidableEq, Repr

/-- Modelled from the spec: lower-casing used for case-insensitive matching. -/
def lowerChars (t : List Char) : List Char := t.map Char.toLower

/-- Modelled from the spec: case-insensitive substring test used by the
app-classification keyword heuristics. -/
def containsKeyword (hay needle : List Char) : Bool :=
  (lowerChars hay).tails.any fun s => (lowerChars needle).isPrefixOf s

/-- Modelled from the spec: app-name keyword heuristics of the classification
rule table (§4.2), deterministic and total, falling back to Unknown. -/
def classifyByName (name : List Char) : AppCategory :=
  if containsKeyword name ("mail".toList) then .Email
  else if containsKeyword name ("slack".toList) then .Slack
  else if containsKeyword name ("xcode".toList) then .Code
  else if containsKeyword name ("word".toList) then .Documents
  else if containsKeyword name ("twitter".toList) then .Social
  else if containsKeyword name ("safari".toList) then .Browser
  else if containsKeyword name ("term".toList) then .Terminal
  else .Unknown

/-- Modelled from the spec: bundle-identifier rules of the classification
rule table (§4.2), matched before the app-name keyword heuristics. -/
def classifyByBundle (bundleId : List Char) : AppCategory :=
  if containsKeyword bundleId ("com.apple.mail".toList) then .Email
  else if containsKeyword bundleId ("com.tinyspeck.slackmacgap".toList) then .Slack
  else if containsKeyword bundleId ("com.apple.dt.xcode".toList) then .Code
  else if containsKeyword bundleId ("com.apple.safari".toList) then .Browser
  else if containsKeyword bundleId ("com.apple.terminal".toList) then .Terminal
  else .Unknown

/-- Modelled from the spec: `category()` classifies the active AppContext via
the rule table, bundle id first, then app-name keywords, falling back to
Unknown; deterministic and total. -/
def classifyApp (name : List Char) (bundleId : Option (List Char)) : AppCategory :=
  match bundleId with
  | some b =>
      match classifyByBundle b with
      | .Unknown => classifyByName name
      | c => c
  | none => classifyByName name

/-- Modelled from the spec: the category-default policy table (§4.2 rule 2),
a fixed overridable mapping; the Unknown category carries no default, so
resolution falls through to the learned style. -/
def categoryDefault : AppCategory → Option WritingMode
  | .Email => some .Formal
  | .Slack => some .Casual
  | .Code => some .Formal
  | .Documents => some .Formal
  | .Social => some .VeryCasual
  | .Browser => some .Casual
  | .Terminal => some .Formal
  | .Unknown => none

/-- Modelled from the spec: StyleProfile, an accumulating score derived from
corrections together with the monotone correction counter (§4.5); owned
solely by the StyleLearner and mutated only by learning calls. -/
structure StyleLearner where
  score : Int
  evidence : Nat
  corrections : Nat
deriving DecidableEq, Repr

/-- Modelled from the spec: a fresh StyleLearner with no accumulated signal. -/
def StyleLearner.fresh : StyleLearner := { score := 0, evidence := 0, corrections := 0 }

/-- Modelled from the spec: the heuristic casualness signal of a text, derived
from punctuation intensity and capitalization (§4.5); exclamation marks push
toward the casual end, capital letters toward the formal end. -/
def casualSignal (t : List Char) : Int :=
  4 * ((t.filter (fun c => c = '!')).length : Int)
    - ((t.filter Char.isUpper).length : Int)

/-- Modelled from the spec: the directional style delta of an edit pair,
toward casual when the edit increased the casualness signal. -/
def styleDelta (original edited : List Char) : Int :=
  casualSignal edited - casualSignal original

/-- Modelled from the spec: `learn_from_edit` folds the directional delta of
the edit pair into the profile and increments the monotone correction
counter (§4.5). -/
def StyleLearner.learnFromEdit (l : StyleLearner) (original edited : List Char) :
    StyleLearner :=
  { score := l.score + styleDelta original edited
    evidence := l.evidence + 1
    corrections := l.corrections + 1 }

/-- Modelled from the spec: `learn_style` folds a weaker single-sample signal
(half weight, no paired original) into the profile; it does not count toward
`correction_count` (open question §9, resolved here to edit pairs only). -/
def StyleLearner.learnStyle (l : StyleLearner) (edited : List Char) : StyleLearner :=
  { score := l.score + casualSignal edited / 2
    evidence := l.evidence + 1
    corrections := l.corrections }

/-- Modelled from the spec: the minimum evidence threshold below which
`suggestion()` returns the NoSuggestion sentinel. -/
def minEvidenceThreshold : Nat := 3

/-- Modelled from the spec: the profile centroid of each writing mode on the
accumulated casualness axis. -/
def centroid : WritingMode → Int
  | .Formal => 0
  | .Casual => 2
  | .VeryCasual => 4
  | .Excited => 6

/-- Modelled from the spec: the writing mode whose profile centroid is closest
to the accumulated score, earlier modes winning ties. -/
def closestMode (x : Int) : WritingMode :=
  let dF := (x - centroid .Formal).natAbs
  let dC := (x - centroid .Casual).natAbs
  let dV := (x - centroid .VeryCasual).natAbs
  let dE := (x - centroid .Excited).natAbs
  if dF ≤ dC ∧ dF ≤ dV ∧ dF ≤ dE then .Formal
  else if dC ≤ dV ∧ dC ≤ dE then .Casual
  else if dV ≤ dE then .VeryCasual
  else .Excited

/-- Modelled from the spec: `suggestion()` returns the sentinel 255 until the
minimum evidence threshold is reached, and thereafter the FFI code of the mode
whose centroid is closest to the count-averaged accumulated score. -/
def StyleLearner.suggestionCode (l : StyleLearner) : Nat :=
  if l.evidence < minEvidenceThreshold then noSuggestionCode
  else modeCode (closestMode (l.score / (l.evidence : Int)))

/-- Modelled from the spec: decoding of a suggestion code at the resolution
site; the sentinel and any out-of-range code decode to no mode. -/
def decodeMode (code : Nat) : Option WritingMode :=
  if code = 0 then some .Formal
  else if code = 1 then some .Casual
  else if code = 2 then some .VeryCasual
  else if code = 3 then some .Excited
  else none

/-- Modelled from the spec: ModeOverride, a mapping from app name to
WritingMode, explicit and user-set (§3). -/
def lookupOverride (overrides : List (List Char × WritingMode)) (appName : List Char) :
    Option WritingMode :=
  match overrides.find? (fun p => p.1 = appName) with
  | some p => some p.2
  | none => none

/-- Modelled from the spec: mode resolution (§4.2), evaluated top to bottom,
first match wins: explicit override, then category default, then learned-style
suggestion when not the sentinel, then the global default Formal. -/
def resolveMode (overrides : List (List Char × WritingMode)) (appName : List Char)
    (cat : AppCategory) (suggestion : Nat) : WritingMode :=
  match lookupOverride overrides appName with
  | some m => m
  | none =>
      match categoryDefault cat with
      | some m => m
      | none =>
          match decodeMode suggestion with
          | some m => m
          | none => .Formal

/-- Modelled from the spec: a Shortcut pairs a trigger phrase with literal
replacement text (§3). -/
structure Shortcut where
  trigger : List Char
  replacement : List Char
deriving DecidableEq, Repr

/-- Modelled from the spec: whole-trigger case-insensitive match of a trigger
at the front of a text (§4.4). -/
def matchPhraseAt (trigger text : List Char) : Bool :=
  0 < trigger.length && trigger.length ≤ text.length &&
    lowerChars (text.take trigger.length) = lowerChars trigger

/-- Modelled from the spec: running best candidate while scanning the shortcut
list for matches at the front of the text; a strictly longer matching trigger
displaces the current best (§4.4, longest trigger wins). -/
def bestOf (text : List Char) (best : Option Shortcut) : List Shortcut → Option Shortcut
  | [] => best
  | s :: rest =>
      if matchPhraseAt s.trigger text then
        match best with
        | none => bestOf text (some s) rest
        | some b =>
            if b.trigger.length < s.trigger.length then bestOf text (some s) rest
            else bestOf text (some b) rest
      else bestOf text best rest

/-- Modelled from the spec: among the shortcuts whose trigger matches at the
front of the text, the one with the longest trigger (§4.4); earlier entries
win ties. -/
def bestMatch (shortcuts : List Shortcut) (text : List Char) : Option Shortcut :=
  bestOf text none shortcuts

/-- Modelled from the spec: the scanner of the single substitution pass
(§4.4), structurally recursive on the text; while `skip` is positive the
character belongs to an already-replaced span and is consumed without being
rescanned. -/
def substituteGo (shortcuts : List Shortcut) : List Char → Nat → List Char
  | [], _ => []
  | _ :: rest, skip + 1 => substituteGo shortcuts rest skip
  | c :: rest, 0 =>
      match bestMatch shortcuts (c :: rest) with
      | some s => s.replacement ++ substituteGo shortcuts rest (s.trigger.length - 1)
      | none => c :: substituteGo shortcuts rest 0

/-- Modelled from the spec: the single substitution pass (§4.4).  The text is
scanned left to right; at each position the longest case-insensitively
matching trigger is replaced and scanning resumes after the consumed span, so
replacement text is never rescanned for further trigger matches. -/
def substitute (shortcuts : List Shortcut) (text : List Char) : List Char :=
  substituteGo shortcuts text 0

/-- Modelled from the spec: the longest replacement text over a shortcut set,
used to bound the growth of the substitution pass. -/
def maxReplLen (shortcuts : List Shortcut) : Nat :=
  shortcuts.foldr (fun s acc => max s.replacement.length acc) 0

/-- Modelled from the spec: whether any trigger of the shortcut set matches
anywhere in the text (i.e. some trigger occurs as a substring, in the
case-insensitive whole-phrase sense of the substitution pass). -/
def hasMatchIn (shortcuts : List Shortcut) : List Char → Bool
  | [] => false
  | c :: rest => (bestMatch shortcuts (c :: rest)).isSome || hasMatchIn shortcuts rest

/-- Modelled from the spec: whether `a` occurs as a contiguous substring
of `b`. -/
def isSubstringB (a b : List Char) : Bool :=
  b.tails.any fun s => a.isPrefixOf s

/-- Modelled from the spec: two trigger phrases are overlap-free when neither
occurs inside the other and no nonempty suffix of one is a prefix of the
other, so no two occurrences can share a span (§4.4). -/
def overlapFree (a b : List Char) : Bool :=
  !isSubstringB a b && !isSubstringB b a &&
    !(a.tails.any fun s => !s.isEmpty && s.isPrefixOf b) &&
    !(b.tails.any fun s => !s.isEmpty && s.isPrefixOf a)

/-- Modelled from the spec: a shortcut set has pairwise disjoint,
non-overlapping triggers when every pair of distinct entries is overlap-free
after case folding (§8). -/
def disjointTriggers : List Shortcut → Bool
  | [] => true
  | s :: rest =>
      rest.all (fun t => overlapFree (lowerChars s.trigger) (lowerChars t.trigger)) &&
        disjointTriggers rest

/-- Modelled from the spec: the ShortcutEngine state, a table of shortcuts
keyed by unique trigger (§3). -/
structure ShortcutEngine where
  shortcuts : List Shortcut
deriving DecidableEq, Repr

/-- Modelled from the spec: the empty shortcut set. -/
def ShortcutEngine.empty : ShortcutEngine := { shortcuts := [] }

/-- Modelled from the spec: whether a trigger is currently present. -/
def ShortcutEngine.hasTrigger (e : ShortcutEngine) (trigger : List Char) : Bool :=
  e.shortcuts.any fun s => s.trigger = trigger

/-- Modelled from the spec: `add(trigger, replacement)` is an upsert — an
existing entry with the same trigger is replaced in place, otherwise a new
entry is inserted (§4.4). -/
def ShortcutEngine.add (e : ShortcutEngine) (trigger replacement : List Char) :
    ShortcutEngine :=
  if e.hasTrigger trigger then
    { shortcuts := e.shortcuts.map fun s =>
        if s.trigger = trigger then { trigger := trigger, replacement := replacement }
        else s }
  else
    { shortcuts := { trigger := trigger, replacement := replacement } :: e.shortcuts }

/-- Modelled from the spec: `remove(trigger)` deletes the entry and returns
false, leaving the set unchanged, when the trigger is absent (§4.4). -/
def ShortcutEngine.remove (e : ShortcutEngine) (trigger : List Char) :
    Bool × ShortcutEngine :=
  if e.hasTrigger trigger then
    (true, { shortcuts := e.shortcuts.filter fun s => !(s.trigger = trigger : Bool) })
  else
    (false, e)

/-- Modelled from the spec: `count()` returns the current size of the
shortcut table. -/
def ShortcutEngine.count (e : ShortcutEngine) : Nat :=
  e.shortcuts.length

/-- Modelled from the spec: one user-level operation on the ShortcutEngine. -/
inductive ShortcutOp where
  | add (trigger replacement : List Char)
  | remove (trigger : List Char)
deriving DecidableEq, Repr

/-- Modelled from the spec: application of one operation to the engine. -/
def ShortcutEngine.applyOp (e : ShortcutEngine) : ShortcutOp → ShortcutEngine
  | .add trigger replacement => e.add trigger replacement
  | .remove trigger => (e.remove trigger).2

/-- Modelled from the spec: a finite sequence of add/remove operations run
from a starting state. -/
def ShortcutEngine.applyOps (e : ShortcutEngine) : List ShortcutOp → ShortcutEngine
  | [] => e
  | op :: rest => (e.applyOp op).applyOps rest

/-- Modelled from the spec: the triggers currently present in the table. -/
def ShortcutEngine.triggers (e : ShortcutEngine) : List (List Char) :=
  e.shortcuts.map Shortcut.trigger

/-- Modelled from the spec: the stored replacement of a trigger, when
present. -/
def ShortcutEngine.lookup (e : ShortcutEngine) (t : List Char) : Option (List Char) :=
  match e.shortcuts.find? (fun s => s.trigger = t) with
  | some s => some s.replacement
  | none => none

/-- Modelled from the spec: a per-transcription StatsRecord {timestamp,
duration, resulting text length} (§3). -/
structure StatsRecord where
  timestamp : Nat
  durationMs : Nat
  textLen : Nat
deriving DecidableEq, Repr

/-- Modelled from the spec: the StatsTracker keeps the history most-recent
first together with running aggregates that are never recomputed by scanning
history (§4.6). -/
structure StatsTracker where
  records : List StatsRecord
  totalCount : Nat
  totalMs : Nat
deriving DecidableEq, Repr

/-- Modelled from the spec: a fresh tracker with no history. -/
def StatsTracker.fresh : StatsTracker := { records := [], totalCount := 0, totalMs := 0 }

/-- Modelled from the spec: each completed transcription appends a record at
the most-recent end and bumps the running aggregates (§4.6). -/
def StatsTracker.record (t : StatsTracker) (r : StatsRecord) : StatsTracker :=
  { records := r :: t.records
    totalCount := t.totalCount + 1
    totalMs := t.totalMs + r.durationMs }

/-- Modelled from the spec: `recent(limit)` returns up to `limit` records,
most-recent-first, fewer when history is shorter; limit 0 yields the empty
sequence rather than an error (§4.6). -/
def StatsTracker.recent (t : StatsTracker) (limit : Nat) : List StatsRecord :=
  t.records.take limit

/-- Modelled from the spec: Provider enum with FFI codes
0 = OpenAI, 1 = Gemini, 2 = OpenRouter, 255 = Unknown. -/
inductive Provider where
  | OpenAI
  | Gemini
  | OpenRouter
deriving DecidableEq, Repr

/-- Modelled from the spec: ProviderConfig holds the per-provider opaque
credentials and the active selection (§4.7). -/
structure ProviderConfig where
  activeProvider : Option Provider
  keys : List (Provider × List Char)
deriving DecidableEq, Repr

/-- Modelled from the spec: the fresh provider configuration — no active
provider, no stored credentials. -/
def ProviderConfig.fresh : ProviderConfig :=
  { activeProvider := none, keys := [] }

/-- Modelled from the spec: the stored credential of a provider, when set. -/
def ProviderConfig.keyFor (cfg : ProviderConfig) (p : Provider) : Option (List Char) :=
  match cfg.keys.find? (fun q => q.1 = p) with
  | some q => some q.2
  | none => none

/-- Modelled from the spec: the number of real credential characters left
visible by the masked rendering. -/
def visiblePrefixLen : Nat := 3

/-- Modelled from the spec: the masking glyph used for all characters of the
credential past the visible prefix. -/
def maskGlyph : Char := '•'

/-- Modelled from the spec: the redacted rendering of a credential — a fixed
prefix of real characters with the remainder replaced by the masking glyph
(§4.7). -/
def maskKey (key : List Char) : List Char :=
  key.take visiblePrefixLen ++ List.replicate (key.length - visiblePrefixLen) maskGlyph

/-- Modelled from the spec: `set_provider_and_key` persists the credential
and activates the provider atomically (§4.7). -/
def ProviderConfig.setProviderAndKey (cfg : ProviderConfig) (p : Provider)
    (key : List Char) : ProviderConfig :=
  { activeProvider := some p
    keys := (p, key) :: cfg.keys.filter fun q => !(q.1 = p : Bool) }

/-- Modelled from the spec: `masked_key(provider)` returns the redacted
rendering, or absence if the credential is unset; the raw credential is never
returned past its visible prefix (§4.7). -/
def ProviderConfig.maskedKey (cfg : ProviderConfig) (p : Provider) :
    Option (List Char) :=
  match cfg.keyFor p with
  | some key => some (maskKey key)
  | none => none

/-- Modelled from the spec: `a` occurs as a contiguous substring of `b`. -/
def IsSubstring (a b : List Char) : Prop :=
  ∃ s t : List Char, b = s ++ a ++ t

/-- Modelled from the spec: the error kinds of the error-handling design
(§7). -/
inductive ErrKind where
  | NotRecording
  | NoBufferAvailable
  | ProviderUnconfigured
  | ProviderCallFailed
  | ModelLoading
  | StorageFailure
  | InvalidArgument
deriving DecidableEq, Repr

/-- Modelled from the spec: RecordingSession state machine states (§3). -/
inductive SessState where
  | Idle
  | Recording
  | Stopped
deriving DecidableEq, Repr

/-- Modelled from the spec: AppContext {name, optional bundle identifier,
optional window title} (§3). -/
structure AppContext where
  name : List Char
  bundleId : Option (List Char)
  windowTitle : Option (List Char)
deriving DecidableEq, Repr

/-- Modelled from the spec: the Engine façade composing the recording
session, context resolver state, shortcut engine, style learner, stats
tracker, provider configuration and the single-slot ErrorState (§2, §3). -/
structure Engine where
  sess : SessState
  buffer : Option (List Int)
  lastDurationMs : Nat
  appCtx : AppContext
  overrides : List (List Char × WritingMode)
  shortcutEngine : ShortcutEngine
  learner : StyleLearner
  stats : StatsTracker
  providerCfg : ProviderConfig
  lastError : Option (List Char)
deriving DecidableEq, Repr

/-- Modelled from the spec: the engine state right after `init` — idle
session, no retained buffer, empty tables, ErrorState absent. -/
def Engine.fresh : Engine :=
  { sess := .Idle
    buffer := none
    lastDurationMs := 0
    appCtx := { name := [], bundleId := none, windowTitle := none }
    overrides := []
    shortcutEngine := .empty
    learner := .fresh
    stats := .fresh
    providerCfg := .fresh
    lastError := none }

/-- Modelled from the spec: ModeOverride upsert used by `set_app_mode`. -/
def setOverride (overrides : List (List Char × WritingMode)) (appName : List Char)
    (m : WritingMode) : List (List Char × WritingMode) :=
  if overrides.any (fun p => p.1 = appName) then
    overrides.map fun p => if p.1 = appName then (appName, m) else p
  else
    (appName, m) :: overrides

/-- Modelled from the spec: `set_active_app` updates the AppContext and
immediately returns the FFI code of the mode resolved by the
override, category-default, learned-style, global-default precedence (§4.2). -/
def flowSetActiveApp (e : Engine) (name : List Char)
    (bundleId windowTitle : Option (List Char)) : Engine × Nat :=
  ({ e with appCtx := { name := name, bundleId := bundleId, windowTitle := windowTitle } },
    modeCode (resolveMode e.overrides name (classifyApp name bundleId)
      e.learner.suggestionCode))

/-- Modelled from the spec: `get_style_suggestion` exposes the learner's
suggestion code over the FFI — a concrete mode code, or the sentinel 255. -/
def flowGetStyleSuggestion (e : Engine) : Nat :=
  e.learner.suggestionCode

/-- Modelled from the spec: `last_error` returns the current ErrorState
message or absence (§4.8). -/
def flowGetLastError (e : Engine) : Option (List Char) :=
  e.lastError

/-- Modelled from the spec: the answer of the external TranscriptionProvider
collaborator — raw transcribed text, or a failure (§2). -/
inductive ProviderAnswer where
  | ok (raw : List Char)
  | fail (msg : List Char)
deriving DecidableEq, Repr

/-- Modelled from the spec: one external call into the engine; outcomes of
the external collaborators (captured audio, the transcription provider's
answer, the current wall-clock timestamp) are supplied as operation data. -/
inductive FlowOp where
  | startRecording
  | stopRecording (captured : List Int) (durationMs : Nat)
  | transcribe (appName : Option (List Char)) (now : Nat)
      (provider : ProviderAnswer)
  | retryLast (appName : Option (List Char)) (now : Nat)
      (provider : ProviderAnswer)
  | addShortcut (trigger replacement : List Char)
  | removeShortcut (trigger : List Char)
  | setActiveApp (name : List Char) (bundleId windowTitle : Option (List Char))
  | setAppMode (appName : List Char) (mode : WritingMode)
  | learnFromEdit (original edited : List Char)
  | learnStyle (edited : List Char)
  | setCompletionProvider (p : Provider) (key : List Char)
deriving DecidableEq, Repr

/-- Modelled from the spec: the outcome of one call; `err` is the failure
signal of a fallible operation, while local misses (absent trigger, stop when
not recording, start when already recording) are plain boolean or zero
results (§7). -/
inductive FlowResult where
  | okBool (b : Bool)
  | okDuration (ms : Nat)
  | okText (t : List Char)
  | okMode (code : Nat)
  | err (kind : ErrKind) (msg : List Char)
deriving DecidableEq, Repr

/-- Modelled from the spec: ErrorState message for a transcription request
without a retained buffer. -/
def msgNoBuffer : List Char := ("no audio buffer available".toList)

/-- Modelled from the spec: ErrorState message for a transcription request
while no provider is configured. -/
def msgUnconfigured : List Char := ("transcription provider not configured".toList)

/-- Modelled from the spec: ErrorState message prefix for a failed provider
call. -/
def msgProviderFailed : List Char := ("provider call failed: ".toList)

/-- Modelled from the spec: ErrorState message for `transcribe` without a
stopped session. -/
def msgNotStopped : List Char := ("no stopped recording session".toList)

/-- Modelled from the spec: the shared transcription pipeline of `transcribe`
and `retry_last_transcription` (§4.3): the retained buffer is sent to the
provider, raw text is piped once through the shortcut substitution pass, a
stats record is appended, and the processed text returned; failures record a
descriptive message in ErrorState before returning the failure signal.
`retry_last_transcription` differs only in not requiring the session to have
just stopped.  Mode-appropriate formatting is modelled as the identity, which
the spec permits (Excited *may* add emphasis). -/
def transcribePipeline (e : Engine) (now : Nat)
    (provider : ProviderAnswer) (requireStopped : Bool) :
    Engine × FlowResult :=
  if requireStopped ∧ e.sess ≠ .Stopped then
    ({ e with lastError := some msgNotStopped }, .err .NotRecording msgNotStopped)
  else
    match e.buffer with
    | none => ({ e with lastError := some msgNoBuffer }, .err .NoBufferAvailable msgNoBuffer)
    | some _ =>
        match e.providerCfg.activeProvider with
        | none =>
            ({ e with lastError := some msgUnconfigured },
              .err .ProviderUnconfigured msgUnconfigured)
        | some _ =>
            match provider with
            | .fail m =>
                ({ e with lastError := some (msgProviderFailed ++ m) },
                  .err .ProviderCallFailed (msgProviderFailed ++ m))
            | .ok raw =>
                let text := substitute e.shortcutEngine.shortcuts raw
                let entry : StatsRecord :=
                  { timestamp := now, durationMs := e.lastDurationMs, textLen := text.length }
                ({ e with stats := e.stats.record entry }, .okText text)

/-- Modelled from the spec: the engine's reaction to one external call
(§4.1-§4.8). -/
def flowStep (e : Engine) : FlowOp → Engine × FlowResult
  | .startRecording =>
      match e.sess with
      | .Recording => (e, .okBool false)
      | _ => ({ e with sess := .Recording }, .okBool true)
  | .stopRecording captured durationMs =>
      match e.sess with
      | .Recording =>
          ({ e with
              sess := .Stopped
              buffer := some captured
              lastDurationMs := durationMs }, .okDuration durationMs)
      | _ => (e, .okDuration 0)
  | .transcribe _ now provider => transcribePipeline e now provider true
  | .retryLast _ now provider => transcribePipeline e now provider false
  | .addShortcut trigger replacement =>
      ({ e with shortcutEngine := e.shortcutEngine.add trigger replacement }, .okBool true)
  | .removeShortcut trigger =>
      let r := e.shortcutEngine.remove trigger
      ({ e with shortcutEngine := r.2 }, .okBool r.1)
  | .setActiveApp name bundleId windowTitle =>
      let r := flowSetActiveApp e name bundleId windowTitle
      (r.1, .okMode r.2)
  | .setAppMode appName mode =>
      ({ e with overrides := setOverride e.overrides appName mode }, .okBool true)
  | .learnFromEdit original edited =>
      ({ e with learner := e.learner.learnFromEdit original edited }, .okBool true)
  | .learnStyle edited =>
      ({ e with learner := e.learner.learnStyle edited }, .okBool true)
  | .setCompletionProvider p key =>
      ({ e with providerCfg := e.providerCfg.setProviderAndKey p key }, .okBool true)

/-- Modelled from the spec: a finite sequence of external calls run against
the engine. -/
def runOps (e : Engine) : List FlowOp → Engine
  | [] => e
  | op :: rest => runOps (flowStep e op).1 rest

/-- Modelled from the spec: whether a result is the failure signal of a
fallible operation (§4.8). -/
def FlowResult.isErr : FlowResult → Bool
  | .err _ _ => true
  | _ => false

/-- Modelled from the spec: whether a result is a successfully processed
transcription text. -/
def FlowResult.isOkText : FlowResult → Bool
  | .okText _ => true
  | _ => false

/-- Modelled from the spec: every call of the sequence succeeded (no result
was a failure signal). -/
def allOk (e : Engine) : List FlowOp → Bool
  | [] => true
  | op :: rest => !(flowStep e op).2.isErr && allOk (flowStep e op).1 rest

/-- Modelled from the spec: the number of successful transcriptions performed
by the call sequence. -/
def okTextCount (e : Engine) : List FlowOp → Nat
  | [] => 0
  | op :: rest =>
      (if (flowStep e op).2.isOkText then 1 else 0) + okTextCount (flowStep e op).1 rest

/-- Modelled from the spec: `transcription_count` exposes the running
aggregate count over the FFI (§4.6). -/
def flowTranscriptionCount (e : Engine) : Nat :=
  e.stats.totalCount

/-- Modelled from the spec: `get_recent_transcriptions(limit)` returns the
most-recent-first history, truncated to the limit (§4.6); serialization to
JSON at the FFI boundary is outside the core. -/
def flowGetRecent (e : Engine) (limit : Nat) : List StatsRecord :=
  e.stats.recent limit

/-- Concrete shortcut table used to exercise the substitution pass. -/
def demoShortcuts : List Shortcut :=
  [{ trigger := ("brb".toList), replacement := ("be right back".toList) }]

/-- Concrete shortcut table with two triggers that both match at the same
position, to exercise longest-trigger-wins. -/
def demoOverlap : List Shortcut :=
  [{ trigger := ("brb".toList), replacement := ("A".toList) },
   { trigger := ("brb now".toList), replacement := ("B".toList) }]

/-- Call sequence that configures a provider, installs a shortcut and records
one utterance, leaving the engine ready to transcribe. -/
def demoReadyOps : List FlowOp :=
  [.setCompletionProvider .OpenAI ("sk-abcdef".toList),
   .addShortcut ("brb".toList) ("be right back".toList),
   .startRecording,
   .stopRecording [1, 2, 3] 60000]

/-- Engine state ready to transcribe: provider configured, one shortcut, one
retained buffer. -/
def demoReady : Engine := runOps Engine.fresh demoReadyOps

/-- Three edit pairs that each shift the style toward the casual end. -/
def scenarioOps : List FlowOp :=
  [.learnFromEdit ("ok then".toList) ("ok then!".toList),
   .learnFromEdit ("see you".toList) ("see you!".toList),
   .learnFromEdit ("sounds good".toList) ("sounds good!".toList)]

/-- Engine state after the three style-learning edits. -/
def demoLearnerEngine : Engine := runOps Engine.fresh scenarioOps

/-- Engine state with an explicit mode override for the app named Slack. -/
def demoOverrideEngine : Engine :=
  runOps Engine.fresh [.setAppMode ("Slack".toList) .Excited]

theorem bestOf_spec (text : List Char) :
    ∀ (l : List Shortcut) (best : Option Shortcut) (b : Shortcut),
      bestOf text best l = some b →
      best = some b ∨ (b ∈ l ∧ matchPhraseAt b.trigger text = true) := by
  intro l
  induction l with
  | nil => intro best b hb; exact Or.inl hb
  | cons s rest ih =>
      intro best b hb
      by_cases hm : matchPhraseAt s.trigger text
      · simp only [bestOf, hm, if_true] at hb
        match best with
        | none =>
            rcases ih (some s) b hb with h | h
            · cases h; exact Or.inr ⟨List.mem_cons_self s rest, hm⟩
            · exact Or.inr ⟨List.mem_cons_of_mem s h.1, h.2⟩
        | some a =>
            by_cases hlt : a.trigger.length < s.trigger.length
            · simp only [hlt, if_true] at hb
              rcases ih (some s) b hb with h | h
              · cases h; exact Or.inr ⟨List.mem_cons_self s rest, hm⟩
              · exact Or.inr ⟨List.mem_cons_of_mem s h.1, h.2⟩
            · simp only [hlt, if_false] at hb
              rcases ih (some a) b hb with h | h
              · exact Or.inl h
              · exact Or.inr ⟨List.mem_cons_of_mem s h.1, h.2⟩
      · simp only [bestOf, hm, if_false] at hb
        rcases ih best b hb with h | h
        · exact Or.inl h
        · exact Or.inr ⟨List.mem_cons_of_mem s h.1, h.2⟩

theorem bestOf_ge (text : List Char) :
    ∀ (l : List Shortcut) (a : Shortcut),
      ∃ b, bestOf text (some a) l = some b ∧ a.trigger.length ≤ b.trigger.length := by
  intro l
  induction l with
  | nil => intro a; exact ⟨a, rfl, le_rfl⟩
  | cons s rest ih =>
      intro a
      by_cases hm : matchPhraseAt s.trigger text
      · simp only [bestOf, hm, if_true]
        by_cases hlt : a.trigger.length < s.trigger.length
        · simp only [hlt, if_true]
          rcases ih s with ⟨b, hb, hle⟩
          exact ⟨b, hb, le_trans (le_of_lt hlt) hle⟩
        · simp only [hlt, if_false]
          exact ih a
      · simp only [bestOf, hm, if_false]
        exact ih a

theorem bestOf_longest (text : List Char) :
    ∀ (l : List Shortcut) (best : Option Shortcut) (s : Shortcut), s ∈ l →
      matchPhraseAt s.trigger text = true →
      ∃ b, bestOf text best l = some b ∧ s.trigger.length ≤ b.trigger.length := by
  intro l
  induction l with
  | nil => intro best s hs; cases hs
  | cons t rest ih =>
      intro best s hs hm
      rcases List.mem_cons.mp hs with heq | hmem
      · subst heq
        simp only [bestOf, hm, if_true]
        match best with
        | none => exact bestOf_ge text rest s
        | some a =>
            by_cases hlt : a.trigger.length < s.trigger.length
            · simp only [hlt, if_true]
              exact bestOf_ge text rest s
            · simp only [hlt, if_false]
              rcases bestOf_ge text rest a with ⟨b, hb, hle⟩
              exact ⟨b, hb, le_trans (le_of_not_lt hlt) hle⟩
      · by_cases hm2 : matchPhraseAt t.trigger text
        · simp only [bestOf, hm2, if_true]
          match best with
          | none => exact ih (some t) s hmem hm
          | some a =>
              by_cases hlt : a.trigger.length < t.trigger.length
              · simp only [hlt, if_true]
                exact ih (some t) s hmem hm
              · simp only [hlt, if_false]
                exact ih (some a) s hmem hm
        · simp only [bestOf, hm2, if_false]
          exact ih best s hmem hm

theorem bestMatch_matches (shortcuts : List Shortcut) (text : List Char) :
    ∀ b, bestMatch shortcuts text = some b →
      b ∈ shortcuts ∧ matchPhraseAt b.trigger text = true := by
  intro b hb
  rcases bestOf_spec text shortcuts none b hb with h | h
  · cases h
  · exact h

theorem bestMatch_longest (shortcuts : List Shortcut) (text : List Char) :
    ∀ s ∈ shortcuts, matchPhraseAt s.trigger text = true →
      ∃ b, bestMatch shortcuts text = some b ∧ s.trigger.length ≤ b.trigger.length := by
  intro s hs hm
  exact bestOf_longest text shortcuts none s hs hm

theorem substituteGo_eq_drop (shortcuts : List Shortcut) :
    ∀ (text : List Char) (k : Nat),
      substituteGo shortcuts text k = substitute shortcuts (text.drop k) := by
  intro text
  induction text with
  | nil => intro k; cases k <;> rfl
  | cons c rest ih =>
      intro k
      cases k with
      | zero => rfl
      | succ j =>
          show substituteGo shortcuts rest j = substitute shortcuts ((c :: rest).drop (j + 1))
          rw [List.drop_succ_cons]
          exact ih j

theorem substitute_nil (shortcuts : List Shortcut) : substitute shortcuts [] = [] := rfl

theorem substitute_cons (shortcuts : List Shortcut) (c : Char) (rest : List Char) :
    substitute shortcuts (c :: rest) =
      match bestMatch shortcuts (c :: rest) with
      | some s => s.replacement ++ substitute shortcuts (List.drop (s.trigger.length - 1) rest)
      | none => c :: substitute shortcuts rest := by
  show substituteGo shortcuts (c :: rest) 0 = _
  rw [substituteGo]
  cases bestMatch shortcuts (c :: rest) with
  | none => rfl
  | some s =>
      show s.replacement ++ substituteGo shortcuts rest (s.trigger.length - 1) =
        s.replacement ++ substitute shortcuts (List.drop (s.trigger.length - 1) rest)
      rw [substituteGo_eq_drop]

theorem matchPhraseAt_pos {trigger text : List Char}
    (h : matchPhraseAt trigger text = true) : 0 < trigger.length := by
  simp only [matchPhraseAt, Bool.and_eq_true, decide_eq_true_eq] at h
  exact h.1.1

theorem matchPhraseAt_le {trigger text : List Char}
    (h : matchPhraseAt trigger text = true) : trigger.length ≤ text.length := by
  simp only [matchPhraseAt, Bool.and_eq_true, decide_eq_true_eq] at h
  exact h.1.2

theorem matchPhraseAt_nil (trigger : List Char) :
    matchPhraseAt trigger [] = false := by
  by_contra h
  have h2 := matchPhraseAt_pos (Bool.of_not_eq_false h)
  have h3 := matchPhraseAt_le (Bool.of_not_eq_false h)
  simp only [List.length_nil, Nat.le_zero] at h3
  omega

theorem bestMatch_nil (shortcuts : List Shortcut) :
    bestMatch shortcuts [] = none := by
  cases h : bestMatch shortcuts []
  · rfl
  · rcases bestMatch_matches shortcuts [] _ h with ⟨_, hm⟩
    rw [matchPhraseAt_nil] at hm
    cases hm

theorem substitute_step (shortcuts : List Shortcut) (text : List Char) (s : Shortcut)
    (h : bestMatch shortcuts text = some s) :
    substitute shortcuts text =
      s.replacement ++ substitute shortcuts (text.drop s.trigger.length) := by
  match text with
  | [] => rw [bestMatch_nil] at h; cases h
  | c :: rest =>
      have hpos : 0 < s.trigger.length :=
        matchPhraseAt_pos (bestMatch_matches shortcuts (c :: rest) s h).2
      rw [substitute_cons, h]
      have hdrop : (c :: rest).drop s.trigger.length = rest.drop (s.trigger.length - 1) := by
        match s.trigger.length, hpos with
        | n + 1, _ => simp [List.drop]
      rw [hdrop]

theorem replacement_le_maxReplLen {shortcuts : List Shortcut} {s : Shortcut}
    (h : s ∈ shortcuts) : s.replacement.length ≤ maxReplLen shortcuts := by
  induction shortcuts with
  | nil => cases h
  | cons t rest ih =>
      rcases List.mem_cons.mp h with heq | hmem
      · subst heq
        exact le_max_left _ _
      · exact le_trans (ih hmem) (le_max_right _ _)

theorem substitute_length_le_aux (shortcuts : List Shortcut) :
    ∀ (n : Nat) (text : List Char), text.length ≤ n →
      (substitute shortcuts text).length ≤ text.length * max 1 (maxReplLen shortcuts) := by
  intro n
  induction n with
  | zero =>
      intro text ht
      match text, ht with
      | [], _ => simp [substitute_nil]
  | succ n ih =>
      intro text ht
      match text with
      | [] => simp [substitute_nil]
      | c :: rest =>
          rw [substitute_cons]
          cases h : bestMatch shortcuts (c :: rest) with
          | none =>
              simp only [List.length_cons]
              have := ih rest (by simpa using Nat.le_of_succ_le_succ ht)
              have hM : 1 ≤ max 1 (maxReplLen shortcuts) := le_max_left _ _
              calc (c :: substitute shortcuts rest).length
                  = (substitute shortcuts rest).length + 1 := by simp
                _ ≤ rest.length * max 1 (maxReplLen shortcuts) + 1 := by omega
                _ ≤ rest.length * max 1 (maxReplLen shortcuts)
                      + max 1 (maxReplLen shortcuts) := by omega
                _ = (rest.length + 1) * max 1 (maxReplLen shortcuts) := by ring
          | some s =>
              rcases bestMatch_matches shortcuts (c :: rest) s h with ⟨hmem, hm⟩
              have hrep : s.replacement.length ≤ max 1 (maxReplLen shortcuts) :=
                le_trans (replacement_le_maxReplLen hmem) (le_max_right _ _)
              have hlen : (rest.drop (s.trigger.length - 1)).length ≤ rest.length := by
                simp only [List.length_drop]
                omega
              have hrec := ih (rest.drop (s.trigger.length - 1))
                (le_trans hlen (by simpa using Nat.le_of_succ_le_succ ht))
              simp only [List.length_append, List.length_cons]
              have hmono : (rest.drop (s.trigger.length - 1)).length
                    * max 1 (maxReplLen shortcuts)
                  ≤ rest.length * max 1 (maxReplLen shortcuts) :=
                Nat.mul_le_mul_right _ hlen
              calc s.replacement.length
                    + (substitute shortcuts (rest.drop (s.trigger.length - 1))).length
                  ≤ max 1 (maxReplLen shortcuts)
                      + rest.length * max 1 (maxReplLen shortcuts) := by omega
                _ = (rest.length + 1) * max 1 (maxReplLen shortcuts) := by ring

theorem substitute_length_le (shortcuts : List Shortcut) (text : List Char) :
    (substitute shortcuts text).length ≤ text.length * max 1 (maxReplLen shortcuts) :=
  substitute_length_le_aux shortcuts text.length text le_rfl

theorem matchPhraseAt_ci (trigger : List Char) {t1 t2 : List Char}
    (h : lowerChars t1 = lowerChars t2) :
    matchPhraseAt trigger t1 = matchPhraseAt trigger t2 := by
  have hlen : t1.length = t2.length := by
    have := congrArg List.length h
    simpa [lowerChars] using this
  have htake : ∀ n : Nat, lowerChars (t1.take n) = lowerChars (t2.take n) := by
    intro n
    simp only [lowerChars, List.map_take]
    exact congrArg (List.take n) h
  simp only [matchPhraseAt, hlen, htake]

theorem substitute_of_no_match (shortcuts : List Shortcut) :
    ∀ text : List Char, hasMatchIn shortcuts text = false →
      substitute shortcuts text = text := by
  intro text
  induction text with
  | nil => intro _; exact substitute_nil shortcuts
  | cons c rest ih =>
      intro h
      simp only [hasMatchIn, Bool.or_eq_false_iff] at h
      rw [substitute_cons]
      cases hb : bestMatch shortcuts (c :: rest) with
      | none =>
          rw [ih h.2]
      | some s =>
          rw [hb] at h
          simp at h

theorem triggers_add_present (e : ShortcutEngine) (t r : List Char)
    (h : e.hasTrigger t = true) : (e.add t r).triggers = e.triggers := by
  simp only [ShortcutEngine.add, h, if_true, ShortcutEngine.triggers, List.map_map]
  apply List.map_congr_left
  intro s _
  by_cases hs : s.trigger = t
  · simp [Function.comp, hs]
  · simp [Function.comp, hs]

theorem triggers_add_absent (e : ShortcutEngine) (t r : List Char)
    (h : e.hasTrigger t = false) : (e.add t r).triggers = t :: e.triggers := by
  simp [ShortcutEngine.add, h, ShortcutEngine.triggers]

theorem not_mem_triggers {e : ShortcutEngine} {t : List Char}
    (h : e.hasTrigger t = false) : t ∉ e.triggers := by
  simp only [ShortcutEngine.hasTrigger, List.any_eq_false, decide_eq_true_eq] at h
  simp only [ShortcutEngine.triggers, List.mem_map]
  rintro ⟨s, hs, rfl⟩
  exact h s hs rfl

theorem count_add_present (e : ShortcutEngine) (t r : List Char)
    (h : e.hasTrigger t = true) : (e.add t r).count = e.count := by
  simp [ShortcutEngine.add, h, ShortcutEngine.count]

theorem count_add_absent (e : ShortcutEngine) (t r : List Char)
    (h : e.hasTrigger t = false) : (e.add t r).count = e.count + 1 := by
  simp [ShortcutEngine.add, h, ShortcutEngine.count]

theorem remove_absent (e : ShortcutEngine) (t : List Char)
    (h : e.hasTrigger t = false) : e.remove t = (false, e) := by
  simp [ShortcutEngine.remove, h]

theorem nodup_applyOp {e : ShortcutEngine} (h : e.triggers.Nodup) (op : ShortcutOp) :
    (e.applyOp op).triggers.Nodup := by
  cases op with
  | add t r =>
      by_cases ht : e.hasTrigger t
      · rw [ShortcutEngine.applyOp, triggers_add_present e t r ht]
        exact h
      · rw [ShortcutEngine.applyOp,
          triggers_add_absent e t r (Bool.eq_false_iff.mpr ht)]
        exact List.Nodup.cons (not_mem_triggers (Bool.eq_false_iff.mpr ht)) h
  | remove t =>
      by_cases ht : e.hasTrigger t
      · have hsub : ((e.remove t).2.triggers).Sublist e.triggers := by
          simp only [ShortcutEngine.remove, ht, if_true, ShortcutEngine.triggers]
          exact List.Sublist.map Shortcut.trigger (List.filter_sublist e.shortcuts)
        exact List.Nodup.sublist hsub h
      · rw [ShortcutEngine.applyOp, remove_absent e t (Bool.eq_false_iff.mpr ht)]
        exact h

theorem nodup_applyOps (ops : List ShortcutOp) :
    ∀ e : ShortcutEngine, e.triggers.Nodup → (e.applyOps ops).triggers.Nodup := by
  induction ops with
  | nil => intro e h; exact h
  | cons op rest ih =>
      intro e h
      exact ih (e.applyOp op) (nodup_applyOp h op)

theorem find?_upsert (t r : List Char) :
    ∀ l : List Shortcut, (∃ s ∈ l, s.trigger = t) →
      (l.map fun s =>
        if s.trigger = t then ({ trigger := t, replacement := r } : Shortcut)
        else s).find? (fun s => s.trigger = t) =
        some { trigger := t, replacement := r } := by
  intro l
  induction l with
  | nil => rintro ⟨s, hs, _⟩; cases hs
  | cons s rest ih =>
      intro h
      by_cases hs : s.trigger = t
      · simp [hs, List.find?_cons_of_pos]
      · simp only [List.map_cons, hs, if_false]
        rw [List.find?_cons_of_neg _ (by simp [hs])]
        apply ih
        rcases h with ⟨x, hx, hxt⟩
        rcases List.mem_cons.mp hx with rfl | hmem
        · exact absurd hxt hs
        · exact ⟨x, hmem, hxt⟩

theorem lookup_add (e : ShortcutEngine) (t r : List Char) :
    (e.add t r).lookup t = some r := by
  cases ht : e.hasTrigger t with
  | true =>
      have hex : ∃ s ∈ e.shortcuts, s.trigger = t := by
        have h2 := ht
        simp only [ShortcutEngine.hasTrigger, List.any_eq_true, decide_eq_true_eq] at h2
        exact h2
      simp only [ShortcutEngine.lookup, ShortcutEngine.add, ht, if_true]
      rw [find?_upsert t r e.shortcuts hex]
  | false =>
      simp only [ShortcutEngine.lookup, ShortcutEngine.add, ht, Bool.false_eq_true, if_false]
      rw [List.find?_cons_of_pos _ (by simp)]

theorem maskKey_length (key : List Char) : (maskKey key).length = key.length := by
  simp only [maskKey, List.length_append, List.length_take, List.length_replicate,
    visiblePrefixLen]
  omega

theorem maskKey_take (key : List Char) :
    (maskKey key).take visiblePrefixLen = key.take visiblePrefixLen := by
  by_cases h : visiblePrefixLen ≤ key.length
  · rw [maskKey, List.take_append_of_le_length (by simp [List.length_take]; omega)]
    simp [List.take_take]
  · have h0 : key.length - visiblePrefixLen = 0 := by omega
    simp [maskKey, h0, List.take_take]

theorem maskKey_drop (key : List Char) :
    (maskKey key).drop visiblePrefixLen =
      List.replicate (key.length - visiblePrefixLen) maskGlyph := by
  by_cases h : visiblePrefixLen ≤ key.length
  · rw [maskKey, List.drop_append_of_le_length (by simp [List.length_take]; omega)]
    have h2 : (key.take visiblePrefixLen).drop visiblePrefixLen = [] :=
      List.drop_eq_nil_of_le (by simp [List.length_take])
    rw [h2, List.nil_append]
  · have h0 : key.length - visiblePrefixLen = 0 := by omega
    rw [maskKey, h0]
    simp only [List.replicate_zero, List.append_nil]
    rw [List.take_of_length_le (by omega)]
    exact List.drop_eq_nil_of_le (by omega)

theorem maskKey_getElem_glyph (key : List Char) (i : Nat)
    (h3 : visiblePrefixLen ≤ i) (hi : i < key.length) :
    (maskKey key)[i]? = some maskGlyph := by
  have hdrop := maskKey_drop key
  have h1 : (maskKey key)[i]? = ((maskKey key).drop visiblePrefixLen)[i - visiblePrefixLen]? := by
    rw [List.getElem?_drop]
    congr 1
    omega
  rw [h1, hdrop, List.getElem?_eq_getElem (by simp only [List.length_replicate]; omega)]
  rw [List.getElem_replicate]

theorem glyph_mem_of_substring_maskKey {key sub : List Char}
    (hsub : IsSubstring sub (maskKey key)) (hlong : visiblePrefixLen < sub.length) :
    maskGlyph ∈ sub := by
  rcases hsub with ⟨s, t, hst⟩
  have hlen2 : key.length = s.length + sub.length + t.length := by
    have h := congrArg List.length hst
    rw [maskKey_length] at h
    simp only [List.length_append] at h
    omega
  have hjlt : visiblePrefixLen - s.length < sub.length := by omega
  have habs : visiblePrefixLen ≤ s.length + (visiblePrefixLen - s.length) := by omega
  have habslen : s.length + (visiblePrefixLen - s.length) < key.length := by omega
  have h1 : (maskKey key)[s.length + (visiblePrefixLen - s.length)]? =
      sub[visiblePrefixLen - s.length]? := by
    rw [hst, List.append_assoc, List.getElem?_append_right (by omega)]
    have h2 : s.length + (visiblePrefixLen - s.length) - s.length =
        visiblePrefixLen - s.length := by omega
    rw [h2, List.getElem?_append_left hjlt]
  have h2 := maskKey_getElem_glyph key (s.length + (visiblePrefixLen - s.length)) habs habslen
  rw [h1] at h2
  exact List.getElem?_mem h2

theorem mem_of_substring {sub b : List Char} (h : IsSubstring sub b) :
    ∀ c ∈ sub, c ∈ b := by
  rcases h with ⟨s, t, rfl⟩
  intro c hc
  simp only [List.mem_append]
  exact Or.inl (Or.inr hc)

theorem no_raw_substring_in_maskKey {key sub : List Char}
    (hglyph : maskGlyph ∉ key) (hlong : visiblePrefixLen < sub.length)
    (hraw : IsSubstring sub key) : ¬ IsSubstring sub (maskKey key) := by
  intro hmask
  exact hglyph (mem_of_substring hraw maskGlyph
    (glyph_mem_of_substring_maskKey hmask hlong))

theorem transcribePipeline_buffer (e : Engine) (now : Nat) (pr : ProviderAnswer)
    (rs : Bool) : ((transcribePipeline e now pr rs).1).buffer = e.buffer := by
  unfold transcribePipeline
  split
  · rfl
  · cases e.buffer with
    | none => rfl
    | some b =>
        cases e.providerCfg.activeProvider with
        | none => rfl
        | some p =>
            cases pr with
            | fail m => rfl
            | ok raw => rfl

theorem flowStep_buffer_isSome {e : Engine} (h : e.buffer.isSome = true)
    (op : FlowOp) : ((flowStep e op).1).buffer.isSome = true := by
  cases op with
  | startRecording =>
      cases hs : e.sess <;> simp [flowStep, hs] <;> exact h
  | stopRecording captured durationMs =>
      cases hs : e.sess <;> simp [flowStep, hs] <;> exact h
  | transcribe app now pr =>
      show ((transcribePipeline e now pr true).1).buffer.isSome = true
      rw [transcribePipeline_buffer]
      exact h
  | retryLast app now pr =>
      show ((transcribePipeline e now pr false).1).buffer.isSome = true
      rw [transcribePipeline_buffer]
      exact h
  | addShortcut t r => exact h
  | removeShortcut t => exact h
  | setActiveApp n b w => exact h
  | setAppMode a m => exact h
  | learnFromEdit o ed => exact h
  | learnStyle ed => exact h
  | setCompletionProvider p k => exact h

theorem runOps_buffer_isSome (ops : List FlowOp) :
    ∀ e : Engine, e.buffer.isSome = true → ((runOps e ops).buffer).isSome = true := by
  induction ops with
  | nil => intro e h; exact h
  | cons op rest ih =>
      intro e h
      exact ih (flowStep e op).1 (flowStep_buffer_isSome h op)

theorem retry_no_bufferError {e : Engine} (h : e.buffer.isSome = true)
    (app : Option (List Char)) (now : Nat) (pr : ProviderAnswer) :
    ∀ k m, (flowStep e (.retryLast app now pr)).2 = .err k m → k ≠ .NoBufferAvailable := by
  intro k m
  show (transcribePipeline e now pr false).2 = .err k m → _
  unfold transcribePipeline
  split
  · rename_i hcond
    exact absurd hcond.1 (by simp)
  · cases hb : e.buffer with
    | none => rw [hb] at h; cases h
    | some b =>
        cases e.providerCfg.activeProvider with
        | none =>
            intro hres
            cases hres
            intro hk
            cases hk
        | some p =>
            cases pr with
            | fail m2 =>
                intro hres
                cases hres
                intro hk
                cases hk
            | ok raw =>
                intro hres
                cases hres

theorem transcribe_ok_buffer {e : Engine} {app : Option (List Char)} {now : Nat}
    {pr : ProviderAnswer} {t : List Char}
    (h : (flowStep e (.transcribe app now pr)).2 = .okText t) :
    e.buffer.isSome = true := by
  revert h
  show (transcribePipeline e now pr true).2 = .okText t → _
  unfold transcribePipeline
  split
  · intro h; cases h
  · cases hb : e.buffer with
    | none => intro h; cases h
    | some b => intro _; rfl

theorem transcribePipeline_err_sets {e : Engine} {now : Nat} {pr : ProviderAnswer}
    {rs : Bool} {k : ErrKind} {m : List Char}
    (h : (transcribePipeline e now pr rs).2 = .err k m) :
    ((transcribePipeline e now pr rs).1).lastError = some m ∧ m ≠ [] := by
  revert h
  unfold transcribePipeline
  split
  · intro h
    cases h
    exact ⟨rfl, by decide⟩
  · cases e.buffer with
    | none =>
        intro h
        cases h
        exact ⟨rfl, by decide⟩
    | some b =>
        cases e.providerCfg.activeProvider with
        | none =>
            intro h
            cases h
            exact ⟨rfl, by decide⟩
        | some p =>
            cases pr with
            | fail m2 =>
                intro h
                cases h
                exact ⟨rfl, by simp [msgProviderFailed]⟩
            | ok raw =>
                intro h
                cases h

theorem transcribePipeline_ok_lastError {e : Engine} {now : Nat} {pr : ProviderAnswer}
    {rs : Bool} (h : ((transcribePipeline e now pr rs).2).isErr = false) :
    ((transcribePipeline e now pr rs).1).lastError = e.lastError := by
  revert h
  unfold transcribePipeline
  split
  · intro h; cases h
  · cases e.buffer with
    | none => intro h; cases h
    | some b =>
        cases e.providerCfg.activeProvider with
        | none => intro h; cases h
        | some p =>
            cases pr with
            | fail m2 => intro h; cases h
            | ok raw => intro _; rfl

theorem flowStep_err_sets {e : Engine} {op : FlowOp} {k : ErrKind} {m : List Char}
    (h : (flowStep e op).2 = .err k m) :
    ((flowStep e op).1).lastError = some m ∧ m ≠ [] := by
  cases op with
  | startRecording =>
      cases hs : e.sess <;> simp [flowStep, hs] at h
  | stopRecording captured durationMs =>
      cases hs : e.sess <;> simp [flowStep, hs] at h
  | transcribe app now pr => exact transcribePipeline_err_sets h
  | retryLast app now pr => exact transcribePipeline_err_sets h
  | addShortcut t r => cases h
  | removeShortcut t => cases h
  | setActiveApp n b w => cases h
  | setAppMode a m2 => cases h
  | learnFromEdit o ed => cases h
  | learnStyle ed => cases h
  | setCompletionProvider p k2 => cases h

theorem flowStep_ok_lastError {e : Engine} {op : FlowOp}
    (h : ((flowStep e op).2).isErr = false) :
    ((flowStep e op).1).lastError = e.lastError := by
  cases op with
  | startRecording => cases hs : e.sess <;> simp [flowStep, hs]
  | stopRecording captured durationMs => cases hs : e.sess <;> simp [flowStep, hs]
  | transcribe app now pr => exact transcribePipeline_ok_lastError h
  | retryLast app now pr => exact transcribePipeline_ok_lastError h
  | addShortcut t r => rfl
  | removeShortcut t => rfl
  | setActiveApp n b w => rfl
  | setAppMode a m2 => rfl
  | learnFromEdit o ed => rfl
  | learnStyle ed => rfl
  | setCompletionProvider p k2 => rfl

theorem runOps_allOk_lastError (ops : List FlowOp) :
    ∀ e : Engine, allOk e ops = true → (runOps e ops).lastError = e.lastError := by
  induction ops with
  | nil => intro e _; rfl
  | cons op rest ih =>
      intro e h
      simp only [allOk, Bool.and_eq_true, Bool.not_eq_true'] at h
      rw [show runOps e (op :: rest) = runOps (flowStep e op).1 rest from rfl]
      rw [ih (flowStep e op).1 h.2]
      exact flowStep_ok_lastError h.1

theorem transcribePipeline_okText {e : Engine} {now : Nat} {pr : ProviderAnswer}
    {rs : Bool} {t : List Char}
    (h : (transcribePipeline e now pr rs).2 = .okText t) :
    ∃ raw, pr = .ok raw ∧ t = substitute e.shortcutEngine.shortcuts raw := by
  revert h
  unfold transcribePipeline
  split
  · intro h; cases h
  · cases e.buffer with
    | none => intro h; cases h
    | some b =>
        cases e.providerCfg.activeProvider with
        | none => intro h; cases h
        | some p =>
            cases pr with
            | fail m2 => intro h; cases h
            | ok raw =>
                intro h
                cases h
                exact ⟨raw, rfl, rfl⟩

theorem transcribePipeline_ok_stats {e : Engine} {now : Nat} {pr : ProviderAnswer}
    {rs : Bool} {t : List Char}
    (h : (transcribePipeline e now pr rs).2 = .okText t) :
    ((transcribePipeline e now pr rs).1).stats =
      e.stats.record { timestamp := now, durationMs := e.lastDurationMs, textLen := t.length } := by
  revert h
  unfold transcribePipeline
  split
  · intro h; cases h
  · cases e.buffer with
    | none => intro h; cases h
    | some b =>
        cases e.providerCfg.activeProvider with
        | none => intro h; cases h
        | some p =>
            cases pr with
            | fail m2 => intro h; cases h
            | ok raw =>
                intro h
                cases h
                rfl

theorem transcribePipeline_not_okText_stats {e : Engine} {now : Nat}
    {pr : ProviderAnswer} {rs : Bool}
    (h : ((transcribePipeline e now pr rs).2).isOkText = false) :
    ((transcribePipeline e now pr rs).1).stats = e.stats := by
  revert h
  unfold transcribePipeline
  split
  · intro _; rfl
  · cases e.buffer with
    | none => intro _; rfl
    | some b =>
        cases e.providerCfg.activeProvider with
        | none => intro _; rfl
        | some p =>
            cases pr with
            | fail m2 => intro _; rfl
            | ok raw => intro h; cases h

theorem flowStep_okText_stats {e : Engine} {op : FlowOp} {t : List Char}
    (h : (flowStep e op).2 = .okText t) :
    ∃ r, ((flowStep e op).1).stats = e.stats.record r := by
  cases op with
  | startRecording => cases hs : e.sess <;> simp [flowStep, hs] at h
  | stopRecording captured durationMs => cases hs : e.sess <;> simp [flowStep, hs] at h
  | transcribe app now pr => exact ⟨_, transcribePipeline_ok_stats h⟩
  | retryLast app now pr => exact ⟨_, transcribePipeline_ok_stats h⟩
  | addShortcut t2 r => cases h
  | removeShortcut t2 => cases h
  | setActiveApp n b w => cases h
  | setAppMode a m2 => cases h
  | learnFromEdit o ed => cases h
  | learnStyle ed => cases h
  | setCompletionProvider p k2 => cases h

theorem flowStep_not_okText_stats {e : Engine} {op : FlowOp}
    (h : ((flowStep e op).2).isOkText = false) :
    ((flowStep e op).1).stats = e.stats := by
  cases op with
  | startRecording => cases hs : e.sess <;> simp [flowStep, hs]
  | stopRecording captured durationMs => cases hs : e.sess <;> simp [flowStep, hs]
  | transcribe app now pr => exact transcribePipeline_not_okText_stats h
  | retryLast app now pr => exact transcribePipeline_not_okText_stats h
  | addShortcut t2 r => rfl
  | removeShortcut t2 => rfl
  | setActiveApp n b w => rfl
  | setAppMode a m2 => rfl
  | learnFromEdit o ed => rfl
  | learnStyle ed => rfl
  | setCompletionProvider p k2 => rfl

theorem runOps_totalCount (ops : List FlowOp) :
    ∀ e : Engine, (runOps e ops).stats.totalCount = e.stats.totalCount + okTextCount e ops := by
  induction ops with
  | nil => intro e; rfl
  | cons op rest ih =>
      intro e
      rw [show runOps e (op :: rest) = runOps (flowStep e op).1 rest from rfl]
      rw [ih (flowStep e op).1]
      rw [show okTextCount e (op :: rest) =
        (if (flowStep e op).2.isOkText then 1 else 0) + okTextCount (flowStep e op).1 rest
        from rfl]
      cases hok : ((flowStep e op).2).isOkText with
      | true =>
          cases hres : (flowStep e op).2 <;> simp [FlowResult.isOkText, hres] at hok
          rcases flowStep_okText_stats hres with ⟨r, hr⟩
          rw [hr]
          simp [StatsTracker.record]
          omega
      | false =>
          rw [flowStep_not_okText_stats hok]
          simp

theorem runOps_records_length (ops : List FlowOp) :
    ∀ e : Engine,
      (runOps e ops).stats.records.length = e.stats.records.length + okTextCount e ops := by
  induction ops with
  | nil => intro e; rfl
  | cons op rest ih =>
      intro e
      rw [show runOps e (op :: rest) = runOps (flowStep e op).1 rest from rfl]
      rw [ih (flowStep e op).1]
      rw [show okTextCount e (op :: rest) =
        (if (flowStep e op).2.isOkText then 1 else 0) + okTextCount (flowStep e op).1 rest
        from rfl]
      cases hok : ((flowStep e op).2).isOkText with
      | true =>
          cases hres : (flowStep e op).2 <;> simp [FlowResult.isOkText, hres] at hok
          rcases flowStep_okText_stats hres with ⟨r, hr⟩
          rw [hr]
          simp [StatsTracker.record]
          omega
      | false =>
          rw [flowStep_not_okText_stats hok]
          simp

theorem recent_length (t : StatsTracker) (k : Nat) :
    (t.recent k).length = min k t.records.length := by
  simp [StatsTracker.recent]

theorem flowStep_okText_records {e : Engine} {op : FlowOp} {t : List Char}
    (h : (flowStep e op).2 = .okText t) :
    ∃ r, ((flowStep e op).1).stats.records = r :: e.stats.records := by
  rcases flowStep_okText_stats h with ⟨r, hr⟩
  exact ⟨r, by rw [hr]; rfl⟩

theorem modeCode_le_three (m : WritingMode) : modeCode m ≤ 3 := by
  cases m <;> decide

/-- C1: with an explicit ModeOverride set for an app name, every
`set_active_app` call for that name returns the override's mode code,
whatever the category classification or learner suggestion; without one,
resolution falls through category default, then learned-style suggestion,
then the global default Formal, first match winning. -/
theorem C1_override_precedence :
    (∀ (e : Engine) (name : List Char) (b w : Option (List Char)) (m : WritingMode),
      lookupOverride e.overrides name = some m →
      (flowSetActiveApp e name b w).2 = modeCode m) ∧
    (∀ (e : Engine) (name : List Char) (b w : Option (List Char)) (m : WritingMode),
      lookupOverride e.overrides name = none →
      categoryDefault (classifyApp name b) = some m →
      (flowSetActiveApp e name b w).2 = modeCode m) ∧
    (∀ (e : Engine) (name : List Char) (b w : Option (List Char)) (m : WritingMode),
      lookupOverride e.overrides name = none →
      categoryDefault (classifyApp name b) = none →
      decodeMode e.learner.suggestionCode = some m →
      (flowSetActiveApp e name b w).2 = modeCode m) ∧
    (∀ (e : Engine) (name : List Char) (b w : Option (List Char)),
      lookupOverride e.overrides name = none →
      categoryDefault (classifyApp name b) = none →
      decodeMode e.learner.suggestionCode = none →
      (flowSetActiveApp e name b w).2 = modeCode .Formal) := by
  refine ⟨?_, ?_, ?_, ?_⟩
  · intro e name b w m h
    simp [flowSetActiveApp, resolveMode, h]
  · intro e name b w m h1 h2
    simp [flowSetActiveApp, resolveMode, h1, h2]
  · intro e name b w m h1 h2 h3
    simp [flowSetActiveApp, resolveMode, h1, h2, h3]
  · intro e name b w h1 h2 h3
    simp [flowSetActiveApp, resolveMode, h1, h2, h3]

/-- Witness for C1: the Slack override set to Excited wins over the Slack
category default Casual; a fresh engine resolves the Slack app via the
category default; a fresh engine resolves an unclassifiable app to the
global default Formal. -/
theorem C1_override_precedence_witness :
    (flowSetActiveApp demoOverrideEngine ("Slack".toList) none none).2 =
        modeCode WritingMode.Excited ∧
    (flowSetActiveApp Engine.fresh ("Slack".toList) none none).2 =
        modeCode WritingMode.Casual ∧
    (flowSetActiveApp Engine.fresh ("zzz".toList) none none).2 =
        modeCode WritingMode.Formal :=
  ⟨C1_override_precedence.1 demoOverrideEngine ("Slack".toList) none none
      WritingMode.Excited (by decide),
    C1_override_precedence.2.1 Engine.fresh ("Slack".toList) none none
      WritingMode.Casual (by decide) (by decide),
    C1_override_precedence.2.2.2 Engine.fresh ("zzz".toList) none none
      (by decide) (by decide) (by decide)⟩

/-- C2: the substitution pass matches whole trigger phrases
case-insensitively, the longest matching trigger wins at each site, each
replacement is emitted verbatim with scanning resuming after the consumed
span (never rescanned), the output length is linearly bounded so no input
causes unbounded expansion, and a successful transcription applies the pass
exactly once to the provider's raw text. -/
theorem C2_substitution_pass :
    (∀ (shortcuts : List Shortcut) (text : List Char) (s : Shortcut),
      s ∈ shortcuts → matchPhraseAt s.trigger text = true →
      ∃ b, bestMatch shortcuts text = some b ∧ s.trigger.length ≤ b.trigger.length) ∧
    (∀ (shortcuts : List Shortcut) (text : List Char) (s : Shortcut),
      bestMatch shortcuts text = some s →
      substitute shortcuts text =
        s.replacement ++ substitute shortcuts (text.drop s.trigger.length)) ∧
    (∀ (trigger t1 t2 : List Char), lowerChars t1 = lowerChars t2 →
      matchPhraseAt trigger t1 = matchPhraseAt trigger t2) ∧
    (∀ (shortcuts : List Shortcut) (text : List Char),
      (substitute shortcuts text).length ≤ text.length * max 1 (maxReplLen shortcuts)) ∧
    (∀ (e : Engine) (now : Nat) (pr : ProviderAnswer) (rs : Bool) (t : List Char),
      (transcribePipeline e now pr rs).2 = .okText t →
      ∃ raw, pr = .ok raw ∧ t = substitute e.shortcutEngine.shortcuts raw) :=
  ⟨fun shortcuts text s hs hm => bestMatch_longest shortcuts text s hs hm,
    fun shortcuts text s h => substitute_step shortcuts text s h,
    fun trigger _ _ h => matchPhraseAt_ci trigger h,
    fun shortcuts text => substitute_length_le shortcuts text,
    fun _ _ _ _ _ h => transcribePipeline_okText h⟩

/-- Witness for C2: with triggers brb and brb now both matching, the chosen
trigger is at least as long as brb; the winning replacement is emitted
verbatim ahead of the scan of the remainder; a ready engine transcribes raw
text through exactly one substitution pass. -/
theorem C2_substitution_pass_witness :
    (∃ b, bestMatch demoOverlap ("brb now friend".toList) = some b ∧
      3 ≤ b.trigger.length) ∧
    substitute demoOverlap ("brb now friend".toList) =
      ("B".toList) ++ substitute demoOverlap (("brb now friend".toList).drop 7) ∧
    (∃ raw, ProviderAnswer.ok ("brb now".toList) = .ok raw ∧
      ("be right back now".toList) = substitute demoReady.shortcutEngine.shortcuts raw) :=
  ⟨C2_substitution_pass.1 demoOverlap ("brb now friend".toList)
      { trigger := ("brb".toList), replacement := ("A".toList) } (by decide) (by decide),
    C2_substitution_pass.2.1 demoOverlap ("brb now friend".toList)
      { trigger := ("brb now".toList), replacement := ("B".toList) } (by decide),
    C2_substitution_pass.2.2.2.2 demoReady 5 (.ok ("brb now".toList)) true
      ("be right back now".toList) (by decide)⟩

/-- C3: when the triggers are pairwise disjoint and non-overlapping and the
output of the pass contains no trigger occurrence, the substitution pass is
idempotent. -/
theorem C3_substitution_idempotent :
    ∀ (shortcuts : List Shortcut) (text : List Char),
      disjointTriggers shortcuts = true →
      hasMatchIn shortcuts (substitute shortcuts text) = false →
      substitute shortcuts (substitute shortcuts text) = substitute shortcuts text := by
  intro shortcuts text _ h
  exact substitute_of_no_match shortcuts _ h

/-- Witness for C3: the single-trigger table brb satisfies both hypotheses on
the text brb now, and substituting twice equals substituting once. -/
theorem C3_substitution_idempotent_witness :
    substitute demoShortcuts (substitute demoShortcuts ("brb now".toList)) =
      substitute demoShortcuts ("brb now".toList) :=
  C3_substitution_idempotent demoShortcuts ("brb now".toList) (by decide) (by decide)

/-- C4: from the empty table, after any finite sequence of add and remove
operations the count equals the number of distinct triggers present; adding
an already-present trigger replaces the entry without increasing the count,
and removing an absent trigger returns false leaving the table unchanged. -/
theorem C4_shortcut_count_invariant :
    (∀ ops : List ShortcutOp,
      (ShortcutEngine.empty.applyOps ops).count =
        ((ShortcutEngine.empty.applyOps ops).triggers).dedup.length) ∧
    (∀ (e : ShortcutEngine) (t r : List Char), e.hasTrigger t = true →
      (e.add t r).count = e.count ∧ (e.add t r).lookup t = some r) ∧
    (∀ (e : ShortcutEngine) (t : List Char), e.hasTrigger t = false →
      e.remove t = (false, e)) := by
  refine ⟨?_, ?_, ?_⟩
  · intro ops
    have hnd : ((ShortcutEngine.empty.applyOps ops).triggers).Nodup :=
      nodup_applyOps ops ShortcutEngine.empty
        (by simp [ShortcutEngine.empty, ShortcutEngine.triggers])
    rw [List.dedup_eq_self.mpr hnd]
    simp [ShortcutEngine.count, ShortcutEngine.triggers]
  · intro e t r h
    exact ⟨count_add_present e t r h, lookup_add e t r⟩
  · intro e t h
    exact remove_absent e t h

/-- Witness for C4: re-adding the trigger brb to a table already containing
it keeps the count and stores the new replacement, and removing an absent
trigger from the empty table returns false and changes nothing. -/
theorem C4_shortcut_count_invariant_witness :
    ((ShortcutEngine.empty.add ("brb".toList) ("x".toList)).add ("brb".toList)
        ("y".toList)).count =
      (ShortcutEngine.empty.add ("brb".toList) ("x".toList)).count ∧
    ((ShortcutEngine.empty.add ("brb".toList) ("x".toList)).add ("brb".toList)
        ("y".toList)).lookup ("brb".toList) = some ("y".toList) ∧
    ShortcutEngine.empty.remove ("omw".toList) = (false, ShortcutEngine.empty) :=
  ⟨(C4_shortcut_count_invariant.2.1 (ShortcutEngine.empty.add ("brb".toList) ("x".toList))
      ("brb".toList) ("y".toList) (by decide)).1,
    (C4_shortcut_count_invariant.2.1 (ShortcutEngine.empty.add ("brb".toList) ("x".toList))
      ("brb".toList) ("y".toList) (by decide)).2,
    C4_shortcut_count_invariant.2.2 ShortcutEngine.empty ("omw".toList) (by decide)⟩

/-- C5: after a successful transcribe the retained buffer survives every
subsequent call sequence, and a later retry, with any app name and any
provider outcome, never fails with the NoBufferAvailable error kind. -/
theorem C5_retry_after_transcribe :
    ∀ (e : Engine) (app : Option (List Char)) (now : Nat) (pr : ProviderAnswer)
      (t : List Char),
      (flowStep e (.transcribe app now pr)).2 = .okText t →
      ∀ (ops : List FlowOp) (app2 : Option (List Char)) (now2 : Nat)
        (pr2 : ProviderAnswer),
        ((runOps (flowStep e (.transcribe app now pr)).1 ops).buffer).isSome = true ∧
        ∀ k m, (flowStep (runOps (flowStep e (.transcribe app now pr)).1 ops)
            (.retryLast app2 now2 pr2)).2 = .err k m → k ≠ .NoBufferAvailable := by
  intro e app now pr t h ops app2 now2 pr2
  have hbuf : e.buffer.isSome = true := transcribe_ok_buffer h
  have hbuf2 : ((flowStep e (.transcribe app now pr)).1).buffer.isSome = true :=
    flowStep_buffer_isSome hbuf _
  have hbuf3 := runOps_buffer_isSome ops _ hbuf2
  exact ⟨hbuf3, retry_no_bufferError hbuf3 app2 now2 pr2⟩

/-- Witness for C5: the ready engine transcribes successfully; after a new
recording has started, a retry whose provider call fails reports
ProviderCallFailed, which is not NoBufferAvailable, and the buffer is still
retained. -/
theorem C5_retry_after_transcribe_witness :
    ((runOps (flowStep demoReady
        (.transcribe none 5 (.ok ("hi there".toList)))).1
        [FlowOp.startRecording]).buffer).isSome = true ∧
    ErrKind.ProviderCallFailed ≠ ErrKind.NoBufferAvailable :=
  ⟨(C5_retry_after_transcribe demoReady none 5 (.ok ("hi there".toList))
      ("hi there".toList) (by decide) [FlowOp.startRecording] none 0
      (.fail ("boom".toList))).1,
    (C5_retry_after_transcribe demoReady none 5 (.ok ("hi there".toList))
      ("hi there".toList) (by decide) [FlowOp.startRecording] none 0
      (.fail ("boom".toList))).2 .ProviderCallFailed
      (msgProviderFailed ++ ("boom".toList)) (by decide)⟩

/-- C6: the style suggestion is the sentinel 255 below the evidence
threshold and the code of the centroid-closest mode at or above it; three
edits shifting toward VeryCasual take a fresh profile from NoSuggestion to
VeryCasual. -/
theorem C6_style_threshold :
    (∀ l : StyleLearner, l.evidence < minEvidenceThreshold →
      l.suggestionCode = noSuggestionCode) ∧
    (∀ l : StyleLearner, minEvidenceThreshold ≤ l.evidence →
      l.suggestionCode = modeCode (closestMode (l.score / (l.evidence : Int)))) ∧
    (0 < styleDelta ("ok then".toList) ("ok then!".toList) ∧
      0 < styleDelta ("see you".toList) ("see you!".toList) ∧
      0 < styleDelta ("sounds good".toList) ("sounds good!".toList) ∧
      flowGetStyleSuggestion Engine.fresh = noSuggestionCode ∧
      flowGetStyleSuggestion demoLearnerEngine = modeCode WritingMode.VeryCasual) := by
  refine ⟨?_, ?_, ?_⟩
  · intro l h
    rw [StyleLearner.suggestionCode, if_pos h]
  · intro l h
    rw [StyleLearner.suggestionCode, if_neg (not_lt.mpr h)]
  · decide

/-- Witness for C6: a fresh learner sits below the threshold and returns the
sentinel; the learner after the three-edit scenario has evidence three and
returns the code of the mode closest to its average score. -/
theorem C6_style_threshold_witness :
    StyleLearner.fresh.suggestionCode = noSuggestionCode ∧
    demoLearnerEngine.learner.suggestionCode =
      modeCode (closestMode (demoLearnerEngine.learner.score /
        (demoLearnerEngine.learner.evidence : Int))) :=
  ⟨C6_style_threshold.1 StyleLearner.fresh (by decide),
    C6_style_threshold.2.1 demoLearnerEngine.learner (by decide)⟩

/-- C7: from a fresh engine, the total count equals the number of successful
transcriptions of the run, recent(k) has length min k N, recent(0) is empty,
and each successful transcription puts its record at the most-recent head of
the history. -/
theorem C7_stats_tracker :
    (∀ ops : List FlowOp,
      flowTranscriptionCount (runOps Engine.fresh ops) = okTextCount Engine.fresh ops) ∧
    (∀ (ops : List FlowOp) (k : Nat),
      (flowGetRecent (runOps Engine.fresh ops) k).length =
        min k (okTextCount Engine.fresh ops)) ∧
    (∀ t : StatsTracker, t.recent 0 = []) ∧
    (∀ (e : Engine) (op : FlowOp) (t : List Char),
      (flowStep e op).2 = .okText t →
      ∃ r, ((flowStep e op).1).stats.records = r :: e.stats.records) := by
  refine ⟨?_, ?_, ?_, ?_⟩
  · intro ops
    rw [flowTranscriptionCount, runOps_totalCount]
    simp [Engine.fresh, StatsTracker.fresh]
  · intro ops k
    rw [flowGetRecent, recent_length, runOps_records_length]
    simp [Engine.fresh, StatsTracker.fresh]
  · intro t
    rfl
  · intro e op t h
    exact flowStep_okText_records h

/-- Witness for C7: a successful transcription on the ready engine appends
its record at the head of the previously empty history. -/
theorem C7_stats_tracker_witness :
    ∃ r, ((flowStep demoReady (.transcribe none 5 (.ok ("hi".toList)))).1).stats.records =
      r :: demoReady.stats.records :=
  C7_stats_tracker.2.2.2 demoReady (.transcribe none 5 (.ok ("hi".toList)))
    ("hi".toList) (by decide)

/-- C8: a masked key is absent exactly when the credential is unset;
otherwise it preserves only the fixed visible prefix, renders every later
character as the masking glyph, and contains no substring of the raw
credential longer than the visible prefix. -/
theorem C8_masked_key_secrecy :
    (∀ (cfg : ProviderConfig) (p : Provider),
      cfg.keyFor p = none → cfg.maskedKey p = none) ∧
    (∀ (cfg : ProviderConfig) (p : Provider) (key : List Char),
      cfg.keyFor p = some key → cfg.maskedKey p = some (maskKey key)) ∧
    (∀ key : List Char,
      (maskKey key).take visiblePrefixLen = key.take visiblePrefixLen ∧
      (maskKey key).drop visiblePrefixLen =
        List.replicate (key.length - visiblePrefixLen) maskGlyph) ∧
    (∀ key sub : List Char, maskGlyph ∉ key → visiblePrefixLen < sub.length →
      IsSubstring sub key → ¬ IsSubstring sub (maskKey key)) := by
  refine ⟨?_, ?_, ?_, ?_⟩
  · intro cfg p h
    rw [ProviderConfig.maskedKey, h]
  · intro cfg p key h
    rw [ProviderConfig.maskedKey, h]
  · intro key
    exact ⟨maskKey_take key, maskKey_drop key⟩
  · intro key sub h1 h2 h3
    exact no_raw_substring_in_maskKey h1 h2 h3

/-- Witness for C8: the fresh configuration has no OpenAI key and masks to
absence; after storing sk-abcdef the rendering keeps sk- and masks the rest,
and the six-character raw suffix abcdef occurs in the credential but not in
the masked rendering. -/
theorem C8_masked_key_secrecy_witness :
    ProviderConfig.fresh.maskedKey Provider.OpenAI = none ∧
    (ProviderConfig.fresh.setProviderAndKey Provider.OpenAI
        ("sk-abcdef".toList)).maskedKey Provider.OpenAI =
      some (maskKey ("sk-abcdef".toList)) ∧
    ¬ IsSubstring ("abcdef".toList) (maskKey ("sk-abcdef".toList)) :=
  ⟨C8_masked_key_secrecy.1 ProviderConfig.fresh Provider.OpenAI (by decide),
    C8_masked_key_secrecy.2.1 (ProviderConfig.fresh.setProviderAndKey Provider.OpenAI
      ("sk-abcdef".toList)) Provider.OpenAI ("sk-abcdef".toList) (by decide),
    C8_masked_key_secrecy.2.2.2 ("sk-abcdef".toList) ("abcdef".toList) (by decide)
      (by decide) ⟨("sk-".toList), [], by decide⟩⟩

/-- C9 as stated is refuted by a local failure: removing an absent shortcut
from a fresh engine is a fallible operation that fails (returns false) yet
leaves ErrorState absent, with no descriptive message written. -/
theorem C9_counterexample :
    (flowStep Engine.fresh (.removeShortcut ("brb".toList))).2 = .okBool false ∧
    flowGetLastError (flowStep Engine.fresh (.removeShortcut ("brb".toList))).1 = none := by
  decide

/-- C9 (amended): every operation failing with an error-kind failure signal
overwrites ErrorState with a nonempty descriptive message before returning;
local boolean misses aside, no successful operation clears ErrorState, so
after a failure followed by any number of successful calls last_error still
returns the most recent failure message; a fresh engine has no error. -/
theorem C9_error_channel :
    (∀ (e : Engine) (op : FlowOp) (k : ErrKind) (m : List Char),
      (flowStep e op).2 = .err k m →
      ((flowStep e op).1).lastError = some m ∧ m ≠ []) ∧
    (∀ (e : Engine) (op : FlowOp),
      ((flowStep e op).2).isErr = false →
      ((flowStep e op).1).lastError = e.lastError) ∧
    (∀ (e : Engine) (op : FlowOp) (k : ErrKind) (m : List Char) (ops : List FlowOp),
      (flowStep e op).2 = .err k m → allOk (flowStep e op).1 ops = true →
      flowGetLastError (runOps (flowStep e op).1 ops) = some m) ∧
    flowGetLastError Engine.fresh = none := by
  refine ⟨?_, ?_, ?_, rfl⟩
  · intro e op k m h
    exact flowStep_err_sets h
  · intro e op h
    exact flowStep_ok_lastError h
  · intro e op k m ops h hall
    rw [flowGetLastError, runOps_allOk_lastError ops _ hall]
    exact (flowStep_err_sets h).1

/-- Witness for C9: a retry on a fresh engine fails with NoBufferAvailable
and writes its message into ErrorState; after a subsequent successful
shortcut addition the message is still reported by last_error. -/
theorem C9_error_channel_witness :
    ((flowStep Engine.fresh (.retryLast none 0 (.ok ("x".toList)))).1).lastError =
        some msgNoBuffer ∧
    msgNoBuffer ≠ [] ∧
    flowGetLastError (runOps (flowStep Engine.fresh
        (.retryLast none 0 (.ok ("x".toList)))).1
        [.addShortcut ("brb".toList) ("be right back".toList)]) = some msgNoBuffer :=
  ⟨(C9_error_channel.1 Engine.fresh (.retryLast none 0 (.ok ("x".toList)))
      .NoBufferAvailable msgNoBuffer (by decide)).1,
    (C9_error_channel.1 Engine.fresh (.retryLast none 0 (.ok ("x".toList)))
      .NoBufferAvailable msgNoBuffer (by decide)).2,
    C9_error_channel.2.2.1 Engine.fresh (.retryLast none 0 (.ok ("x".toList)))
      .NoBufferAvailable msgNoBuffer
      [.addShortcut ("brb".toList) ("be right back".toList)] (by decide) (by decide)⟩

/-- C10: `set_active_app` always returns a concrete mode code at most 3 and
never the 255 sentinel — even with no override, an Unknown category and no
learner suggestion the global default Formal (0) applies — while
`get_style_suggestion` does return 255 on a fresh engine. -/
theorem C10_active_app_concrete_mode :
    (∀ (e : Engine) (name : List Char) (b w : Option (List Char)),
      (flowSetActiveApp e name b w).2 ≤ 3) ∧
    (∀ (e : Engine) (name : List Char) (b w : Option (List Char)),
      (flowSetActiveApp e name b w).2 ≠ noSuggestionCode) ∧
    (∀ (e : Engine) (name : List Char) (b w : Option (List Char)),
      lookupOverride e.overrides name = none →
      classifyApp name b = .Unknown →
      flowGetStyleSuggestion e = noSuggestionCode →
      (flowSetActiveApp e name b w).2 = modeCode .Formal) ∧
    flowGetStyleSuggestion Engine.fresh = noSuggestionCode := by
  refine ⟨?_, ?_, ?_, by decide⟩
  · intro e name b w
    exact modeCode_le_three _
  · intro e name b w h
    have h2 := modeCode_le_three (resolveMode e.overrides name (classifyApp name b)
      e.learner.suggestionCode)
    rw [show (flowSetActiveApp e name b w).2 =
      modeCode (resolveMode e.overrides name (classifyApp name b)
        e.learner.suggestionCode) from rfl] at h
    rw [h, noSuggestionCode] at h2
    omega
  · intro e name b w h1 h2 h3
    have h4 : decodeMode e.learner.suggestionCode = none := by
      rw [show e.learner.suggestionCode = flowGetStyleSuggestion e from rfl, h3]
      rfl
    simp [flowSetActiveApp, resolveMode, h1, h2, h4, categoryDefault]

/-- Witness for C10: a fresh engine with an unclassifiable app name and no
override resolves to the Formal code 0, which is at most 3 and is not the
sentinel 255. -/
theorem C10_active_app_concrete_mode_witness :
    (flowSetActiveApp Engine.fresh ("zzz".toList) none none).2 ≤ 3 ∧
    (flowSetActiveApp Engine.fresh ("zzz".toList) none none).2 ≠ noSuggestionCode ∧
    (flowSetActiveApp Engine.fresh ("zzz".toList) none none).2 = modeCode .Formal :=
  ⟨C10_active_app_concrete_mode.1 Engine.fresh ("zzz".toList) none none,
    C10_active_app_concrete_mode.2.1 Engine.fresh ("zzz".toList) none none,
    C10_active_app_concrete_mode.2.2.1 Engine.fresh ("zzz".toList) none none
      (by decide) (by decide) (by decide)⟩

end FlowWispr
